import Mathlib

/-!
Shallow embedding of the Folk-Ezekia sync server (src/sync_server.py):
the change-fingerprint function, the cooldown loop suppressor, the
outbound batch reconciliation loops and the inbound webhook handlers.
-/

set_option maxRecDepth 4000

/-! ## JSON values and the canonical serialization used by compute_hash

Python: `json.dumps(data, sort_keys=True, default=str)` with the default
separators, then `hashlib.md5(normalized.encode()).hexdigest()`.
-/

/-- An element of a list-valued field as the Folk API returns it: either a
plain string or a flat object such as the email object form
(see search_person_by_email, which accepts both shapes). -/
inductive JLeaf
| jstr (s : String)
| jobjS (fields : List (String × String))
deriving DecidableEq

/-- A field value of a hash_data record: a string (firstName, lastName,
jobTitle, name) or a list (emails, phones, urls). -/
inductive JField
| jstr (s : String)
| jlist (l : List JLeaf)
deriving DecidableEq

/-- The field subset handed to compute_hash (a Python dict, represented as
an association list with distinct keys). -/
abbrev JRecord := List (String × JField)

/-- Lexicographic comparison of character lists by code point: exactly the
string comparison Python sorted keys use. -/
def charListLe : List Char → List Char → Bool
  | [], _ => true
  | _ :: _, [] => false
  | a :: as, b :: bs =>
      if a.toNat < b.toNat then true
      else if b.toNat < a.toNat then false
      else charListLe as bs

theorem charListLe_cons (a b : Char) (as bs : List Char) :
    charListLe (a :: as) (b :: bs) = true ↔
      a.toNat < b.toNat ∨ (a.toNat = b.toNat ∧ charListLe as bs = true) := by
  by_cases h1 : a.toNat < b.toNat
  · simp [charListLe, h1]
  · by_cases h2 : b.toNat < a.toNat
    · simp only [charListLe, if_neg h1, if_pos h2]
      constructor
      · intro h; exact absurd h (by simp)
      · rintro (h | ⟨h, -⟩) <;> omega
    · have he : a.toNat = b.toNat := by omega
      simp [charListLe, h1, h2, he]

theorem charListLe_total : ∀ x y : List Char, charListLe x y = true ∨ charListLe y x = true := by
  intro x
  induction x with
  | nil => intro y; left; rfl
  | cons a as ih =>
    intro y
    cases y with
    | nil => right; rfl
    | cons b bs =>
      rcases Nat.lt_trichotomy a.toNat b.toNat with h | h | h
      · left; rw [charListLe_cons]; exact Or.inl h
      · rcases ih bs with hr | hr
        · left; rw [charListLe_cons]; exact Or.inr ⟨h, hr⟩
        · right; rw [charListLe_cons]; exact Or.inr ⟨h.symm, hr⟩
      · right; rw [charListLe_cons]; exact Or.inl h

theorem charListLe_trans : ∀ x y z : List Char,
    charListLe x y = true → charListLe y z = true → charListLe x z = true := by
  intro x
  induction x with
  | nil => intro y z _ _; rfl
  | cons a as ih =>
    intro y z hxy hyz
    cases y with
    | nil => simp [charListLe] at hxy
    | cons b bs =>
      cases z with
      | nil => simp [charListLe] at hyz
      | cons c cs =>
        rw [charListLe_cons] at hxy hyz ⊢
        rcases hxy with h1 | ⟨h1, h1r⟩
        · rcases hyz with h2 | ⟨h2, _⟩
          · exact Or.inl (by omega)
          · exact Or.inl (by omega)
        · rcases hyz with h2 | ⟨h2, h2r⟩
          · exact Or.inl (by omega)
          · exact Or.inr ⟨by omega, ih bs cs h1r h2r⟩

theorem char_toNat_inj (a b : Char) (h : a.toNat = b.toNat) : a = b := by
  cases a with
  | mk v1 p1 =>
    cases b with
    | mk v2 p2 =>
      simp only [Char.toNat] at h
      have hv : v1 = v2 := by
        cases v1; cases v2
        simp_all [UInt32.toNat]
        exact congrArg UInt32.mk (BitVec.eq_of_toNat_eq h)
      subst hv
      rfl

theorem charListLe_antisymm : ∀ x y : List Char,
    charListLe x y = true → charListLe y x = true → x = y := by
  intro x
  induction x with
  | nil =>
    intro y _ hyx
    cases y with
    | nil => rfl
    | cons b bs => simp [charListLe] at hyx
  | cons a as ih =>
    intro y hxy hyx
    cases y with
    | nil => simp [charListLe] at hxy
    | cons b bs =>
      rw [charListLe_cons] at hxy hyx
      rcases hxy with h1 | ⟨h1, h1r⟩
      · rcases hyx with h2 | ⟨h2, -⟩ <;> omega
      · rcases hyx with h2 | ⟨h2, h2r⟩
        · omega
        · rw [char_toNat_inj a b h1, ih bs h1r h2r]

/-- Order on object entries by key, mirroring sort_keys=True (keys are
compared as strings, by code point, as Python does). -/
def keyLe {β : Type} (a b : String × β) : Prop := charListLe a.1.data b.1.data = true

instance {β : Type} : DecidableRel (@keyLe β) :=
  fun a b => inferInstanceAs (Decidable (charListLe a.1.data b.1.data = true))

instance {β : Type} : IsTotal (String × β) keyLe := ⟨fun a b => charListLe_total a.1.data b.1.data⟩

instance {β : Type} : IsTrans (String × β) keyLe :=
  ⟨fun _ _ _ h1 h2 => charListLe_trans _ _ _ h1 h2⟩

/-- Keys with equal data are equal strings. -/
theorem string_ext {s t : String} (h : s.data = t.data) : s = t := by
  cases s
  cases t
  exact congrArg String.mk h

/-- A string in double quotes (no characters needing escapes occur in the
data the program hashes). -/
def quoteStr (s : String) : String := "\"" ++ s ++ "\""

/-- Join strings with the ", " item separator json.dumps uses by default. -/
def joinComma : List String → String
  | [] => ""
  | [s] => s
  | s :: ss => s ++ ", " ++ joinComma ss

/-- Serialize one list element the way json.dumps does (object keys sorted
by sort_keys=True). -/
def serializeLeaf : JLeaf → String
  | .jstr s => quoteStr s
  | .jobjS kvs =>
      "\x7b" ++ joinComma ((List.insertionSort keyLe kvs).map
        (fun p => quoteStr p.1 ++ ": " ++ quoteStr p.2)) ++ "\x7d"

/-- Serialize one field value the way json.dumps does. -/
def serializeField : JField → String
  | .jstr s => quoteStr s
  | .jlist l => "[" ++ joinComma (l.map serializeLeaf) ++ "]"

/-- json.dumps(data, sort_keys=True): canonical serialization of the field
subset, keys sorted, items joined with ", ", keys suffixed with ": ". -/
def jsonDumpsSorted (r : JRecord) : String :=
  "\x7b" ++ joinComma ((List.insertionSort keyLe r).map
    (fun p => quoteStr p.1 ++ ": " ++ serializeField p.2)) ++ "\x7d"

/-! ## MD5 (hashlib.md5), over lists of byte values -/

/-- 2^32 - 1, the 32-bit mask. -/
def MASK32 : Nat := 4294967295

/-- 32-bit left rotation. -/
def rotl32 (x s : Nat) : Nat := ((x <<< s) ||| (x >>> (32 - s))) &&& MASK32

/-- The 64 MD5 round constants, floor(abs(sin(i+1)) * 2^32). -/
def md5K : List Nat :=
[3614090360, 3905402710, 606105819, 3250441966, 4118548399, 1200080426, 2821735955, 4249261313,
 1770035416, 2336552879, 4294925233, 2304563134, 1804603682, 4254626195, 2792965006, 1236535329,
 4129170786, 3225465664, 643717713, 3921069994, 3593408605, 38016083, 3634488961, 3889429448,
 568446438, 3275163606, 4107603335, 1163531501, 2850285829, 4243563512, 1735328473, 2368359562,
 4294588738, 2272392833, 1839030562, 4259657740, 2763975236, 1272893353, 4139469664, 3200236656,
 681279174, 3936430074, 3572445317, 76029189, 3654602809, 3873151461, 530742520, 3299628645,
 4096336452, 1126891415, 2878612391, 4237533241, 1700485571, 2399980690, 4293915773, 2240044497,
 1873313359, 4264355552, 2734768916, 1309151649, 4149444226, 3174756917, 718787259, 3951481745]

/-- The 64 MD5 per-round shift amounts. -/
def md5S : List Nat :=
[7, 12, 17, 22, 7, 12, 17, 22, 7, 12, 17, 22, 7, 12, 17, 22,
 5, 9, 14, 20, 5, 9, 14, 20, 5, 9, 14, 20, 5, 9, 14, 20,
 4, 11, 16, 23, 4, 11, 16, 23, 4, 11, 16, 23, 4, 11, 16, 23,
 6, 10, 15, 21, 6, 10, 15, 21, 6, 10, 15, 21, 6, 10, 15, 21]

/-- One MD5 round: state (a,b,c,d), message words M, round index i. -/
def md5Round (M : List Nat) (st : Nat × Nat × Nat × Nat) (i : Nat) : Nat × Nat × Nat × Nat :=
  let a := st.1
  let b := st.2.1
  let c := st.2.2.1
  let d := st.2.2.2
  let fg : Nat × Nat :=
    if i < 16 then ((b &&& c) ||| ((MASK32 ^^^ b) &&& d), i)
    else if i < 32 then ((d &&& b) ||| ((MASK32 ^^^ d) &&& c), (5 * i + 1) % 16)
    else if i < 48 then (b ^^^ c ^^^ d, (3 * i + 5) % 16)
    else (c ^^^ (b ||| (MASK32 ^^^ d)), (7 * i) % 16)
  let tmp := (a + fg.1 + md5K.getD i 0 + M.getD fg.2 0) &&& MASK32
  (d, (b + rotl32 tmp (md5S.getD i 0)) &&& MASK32, b, c)

/-- Little-endian decode of 4 bytes starting at position j of a chunk. -/
def word32At (chunk : List Nat) (j : Nat) : Nat :=
  chunk.getD (4 * j) 0 + (chunk.getD (4 * j + 1) 0) <<< 8 +
  (chunk.getD (4 * j + 2) 0) <<< 16 + (chunk.getD (4 * j + 3) 0) <<< 24

/-- Process one 64-byte chunk, updating the four state words. -/
def md5Chunk (st : Nat × Nat × Nat × Nat) (chunk : List Nat) : Nat × Nat × Nat × Nat :=
  let M := (List.range 16).map (word32At chunk)
  let r := (List.range 64).foldl (md5Round M) st
  ((st.1 + r.1) &&& MASK32, (st.2.1 + r.2.1) &&& MASK32,
   (st.2.2.1 + r.2.2.1) &&& MASK32, (st.2.2.2 + r.2.2.2) &&& MASK32)

/-- Split a byte list into 64-byte chunks (the fuel dominates the number of
chunks, so it never runs out). -/
def chunksAux : Nat → List Nat → List (List Nat)
  | 0, _ => []
  | _, [] => []
  | f + 1, l => l.take 64 :: chunksAux f (l.drop 64)

/-- Split a byte list into 64-byte chunks. -/
def chunks64 (l : List Nat) : List (List Nat) := chunksAux l.length l

/-- MD5 padding: append 0x80, zeros to 56 mod 64, then the bit length as
8 little-endian bytes. -/
def md5Pad (msg : List Nat) : List Nat :=
  let bitlen := 8 * msg.length
  let padlen := (55 + 64 - msg.length % 64) % 64
  msg ++ [128] ++ List.replicate padlen 0 ++
    (List.range 8).map (fun i => (bitlen >>> (8 * i)) &&& 255)

/-- MD5 of a byte list: the four final state words. -/
def md5Words (msg : List Nat) : Nat × Nat × Nat × Nat :=
  (chunks64 (md5Pad msg)).foldl md5Chunk (1732584193, 4023233417, 2562383102, 271733878)

/-- Lowercase hex digit. -/
def hexDigit (n : Nat) : Char :=
  if n < 10 then Char.ofNat (48 + n) else Char.ofNat (87 + n)

/-- Two lowercase hex digits of a byte. -/
def byteHex (b : Nat) : String :=
  String.mk [hexDigit (b / 16 % 16), hexDigit (b % 16)]

/-- Hex digest of one 32-bit word, little-endian byte order. -/
def wordHex (w : Nat) : String :=
  byteHex (w &&& 255) ++ byteHex ((w >>> 8) &&& 255) ++
  byteHex ((w >>> 16) &&& 255) ++ byteHex ((w >>> 24) &&& 255)

/-- hashlib.md5(...).hexdigest() of a byte list. -/
def md5Hex (msg : List Nat) : String :=
  let w := md5Words msg
  wordHex w.1 ++ wordHex w.2.1 ++ wordHex w.2.2.1 ++ wordHex w.2.2.2

/-- Bytes of an ASCII string (str.encode() for the ASCII strings the
program serializes). -/
def strBytes (s : String) : List Nat := s.data.map Char.toNat

/-- compute_hash: md5 hexdigest of the sorted-key JSON serialization. -/
def compute_hash (data : JRecord) : String := md5Hex (strBytes (jsonDumpsSorted data))

/-! ## Sync state and the loop suppressor

The state file holds last_poll, people, companies (record id to
\x7b"hash", "last_synced"\x7d) and recent_syncs (key "source:record_id" to an
ISO timestamp).  Timestamps are modelled as seconds (Int); dict lookups and
writes over string keys as association-list operations. -/

/-- Python dict lookup: value at the key, none when absent. -/
def lookupA {α : Type} : List (String × α) → String → Option α
  | [], _ => none
  | (k, v) :: t, key => if k = key then some v else lookupA t key

/-- Python dict write: overwrite the key in place or append it. -/
def alistSet {α : Type} : List (String × α) → String → α → List (String × α)
  | [], key, v => [(key, v)]
  | (k, w) :: t, key, v => if k = key then (key, v) :: t else (k, w) :: alistSet t key v

/-- A record entry of state["people"] / state["companies"]. -/
structure RecordEntry where
  hash : String
  last_synced : Int
deriving DecidableEq

/-- The persisted sync state. -/
structure SyncState where
  last_poll : Option Int
  people : List (String × RecordEntry)
  companies : List (String × RecordEntry)
  recent_syncs : List (String × Int)
deriving DecidableEq

/-- SYNC_COOLDOWN = 300 seconds (5 minutes). -/
def SYNC_COOLDOWN : Int := 300

/-- The f"\x7bsource\x7d:\x7brecord_id\x7d" key of recent_syncs. -/
def mkKey (source record_id : String) : String := source ++ ":" ++ record_id

/-- is_recently_synced: true when the key is present and now - timestamp is
strictly below the cooldown. -/
def is_recently_synced (state : SyncState) (record_id source : String) (now : Int) : Bool :=
  match lookupA state.recent_syncs (mkKey source record_id) with
  | some last_sync => decide (now - last_sync < SYNC_COOLDOWN)
  | none => false

/-- mark_synced: write now at the key, then drop every entry whose
timestamp is not strictly above now minus one hour. -/
def mark_synced (state : SyncState) (record_id source : String) (now : Int) : SyncState :=
  let rs := alistSet state.recent_syncs (mkKey source record_id) now
  { state with recent_syncs := rs.filter (fun kv => decide (kv.2 > now - 3600)) }

/-! ## Outbound (Folk to Ezekia) batch flow -/

/-- Outcome of requests.post to a Zapier webhook: a status code, or a raised
exception (timeout, network error). -/
inductive HttpResult
| status (code : Nat)
| exn
deriving DecidableEq

/-- send_to_zapier: false without a configured URL; otherwise true exactly
for a 200 or 201 response; any exception gives false. -/
def send_to_zapier (url : String) (result : HttpResult) : Bool :=
  if url = "" then false
  else match result with
    | .status c => c == 200 || c == 201
    | .exn => false

/-- A person record as the snapshot loop reads it: every field the loop
extracts, with the defaults person.get(...) supplies when a key is absent. -/
structure PersonRec where
  id : String
  firstName : String
  lastName : String
  emails : List JLeaf
  phones : List JLeaf
  jobTitle : String
  urls : List JLeaf
  description : String
  companies : List JLeaf
deriving DecidableEq

/-- The empty dict as a person record: every get falls back to its default. -/
def emptyPersonRec : PersonRec := ⟨"", "", "", [], [], "", [], "", []⟩

/-- A raw snapshot entry as the loop's shape checks see it: a dict, a
non-dict non-list value, an empty list, a nonempty list whose first element
is a dict, or a nonempty list whose first element is not a dict. -/
inductive SnapItem (α : Type)
| dict (p : α)
| other
| listNil
| listHeadDict (p : α)
| listHeadOther
deriving DecidableEq

/-- The shape handling at the top of the loop: a nonempty list is replaced
by its first element when that is a dict and by an empty dict otherwise;
whatever is then not a dict is rejected. -/
def resolveItem {α : Type} (empty : α) : SnapItem α → Option α
  | .dict p => some p
  | .other => none
  | .listNil => none
  | .listHeadDict p => some p
  | .listHeadOther => some empty

/-- The field subset hashed for a person. -/
def personHashData (p : PersonRec) : JRecord :=
  [("firstName", .jstr p.firstName), ("lastName", .jstr p.lastName),
   ("emails", .jlist p.emails), ("phones", .jlist p.phones),
   ("jobTitle", .jstr p.jobTitle)]

/-- emails[0] if emails and isinstance(emails[0], str) else "". -/
def firstString : List JLeaf → String
  | .jstr s :: _ => s
  | _ => ""

/-- ASCII lowercasing of one character (str.lower on the ASCII data the
program compares). -/
def charLower (c : Char) : Char :=
  if 65 ≤ c.toNat ∧ c.toNat ≤ 90 then Char.ofNat (c.toNat + 32) else c

/-- ASCII lowercasing of a string. -/
def strLower (s : String) : String := ⟨s.data.map charLower⟩

/-- Whether pat occurs as a contiguous sublist (Python "pat in s"). -/
def prefixOfB : List Char → List Char → Bool
  | [], _ => true
  | _ :: _, [] => false
  | a :: as, b :: bs => a == b && prefixOfB as bs

/-- Whether pat occurs anywhere in the list. -/
def containsSub (pat : List Char) : List Char → Bool
  | [] => prefixOfB pat []
  | c :: rest => prefixOfB pat (c :: rest) || containsSub pat rest

/-- The first url that is a string and contains "linkedin" lowercased. -/
def findLinkedin : List JLeaf → Option String
  | [] => none
  | .jstr u :: rest =>
      if containsSub "linkedin".data (strLower u).data then some u else findLinkedin rest
  | .jobjS _ :: rest => findLinkedin rest

/-- companies[0].get("name", "") when companies[0] is a dict. -/
def companyNameOf : List JLeaf → Option String
  | .jobjS kvs :: _ => some ((lookupA kvs "name").getD "")
  | _ => none

/-- The payload sent to Zapier for a person (fields added only
conditionally are Options). -/
structure EzekiaPerson where
  folk_id : String
  first_name : String
  last_name : String
  email : String
  phone : String
  position_title : String
  description : String
  linkedin_url : Option String
  company_name : Option String
deriving DecidableEq

/-- The Folk-to-Ezekia field mapping for a person. -/
def mkEzekiaPerson (p : PersonRec) : EzekiaPerson :=
  { folk_id := p.id
    first_name := p.firstName
    last_name := p.lastName
    email := firstString p.emails
    phone := firstString p.phones
    position_title := p.jobTitle
    description := p.description
    linkedin_url := findLinkedin p.urls
    company_name := companyNameOf p.companies }

/-- The per-kind result tally. -/
structure Stats where
  synced : Nat
  skipped : Nat
  errors : Nat
deriving DecidableEq

/-- How one snapshot entry was classified. -/
inductive Classification
| shapeError
| skippedSuppressed
| skippedUnchanged
| syncedOk
| deliveryError
deriving DecidableEq

/-- One attempted Zapier delivery (the channel is new vs update). -/
structure PersonCall where
  isNew : Bool
  payload : EzekiaPerson
deriving DecidableEq

/-- The body of the people loop for one snapshot entry. -/
def processPerson (urlNew urlUpd : String) (net : String → EzekiaPerson → HttpResult)
    (now : Int) (state : SyncState) (stats : Stats) (item : SnapItem PersonRec) :
    SyncState × Stats × Option PersonCall × Classification :=
  match resolveItem emptyPersonRec item with
  | none => (state, { stats with errors := stats.errors + 1 }, none, .shapeError)
  | some person =>
    let folk_id := person.id
    if is_recently_synced state folk_id "ezekia" now then
      (state, { stats with skipped := stats.skipped + 1 }, none, .skippedSuppressed)
    else
      let current_hash := compute_hash (personHashData person)
      let stored_hash := ((lookupA state.people folk_id).map RecordEntry.hash).getD ""
      if current_hash = stored_hash then
        (state, { stats with skipped := stats.skipped + 1 }, none, .skippedUnchanged)
      else
        let ezekia_data := mkEzekiaPerson person
        let is_new := (lookupA state.people folk_id).isNone
        let url := if is_new then urlNew else urlUpd
        let call : PersonCall := ⟨is_new, ezekia_data⟩
        if send_to_zapier url (net url ezekia_data) then
          let st2 := { state with people := alistSet state.people folk_id ⟨current_hash, now⟩ }
          (mark_synced st2 folk_id "folk" now,
           { stats with synced := stats.synced + 1 }, some call, .syncedOk)
        else
          (state, { stats with errors := stats.errors + 1 }, some call, .deliveryError)

/-- The people loop over a snapshot, threading state and tally and
collecting the attempted deliveries. -/
def runPeople (urlNew urlUpd : String) (net : String → EzekiaPerson → HttpResult) (now : Int) :
    List (SnapItem PersonRec) → SyncState → Stats → SyncState × Stats × List PersonCall
  | [], st, stats => (st, stats, [])
  | item :: rest, st, stats =>
    let r := processPerson urlNew urlUpd net now st stats item
    let rr := runPeople urlNew urlUpd net now rest r.1 r.2.1
    (rr.1, rr.2.1, r.2.2.1.toList ++ rr.2.2)

/-- sync_folk_people_to_ezekia: an empty snapshot returns zero tallies and
leaves the state alone; otherwise the loop runs and last_poll is set. -/
def sync_folk_people_to_ezekia (urlNew urlUpd : String)
    (net : String → EzekiaPerson → HttpResult) (now : Int)
    (people : List (SnapItem PersonRec)) (state : SyncState) :
    SyncState × Stats × List PersonCall :=
  match people with
  | [] => (state, ⟨0, 0, 0⟩, [])
  | _ :: _ =>
    let r := runPeople urlNew urlUpd net now people state ⟨0, 0, 0⟩
    ({ r.1 with last_poll := some now }, r.2.1, r.2.2)

/-- A company record as the snapshot loop reads it. -/
structure CompanyRec where
  id : String
  name : String
  urls : List JLeaf
deriving DecidableEq

/-- The empty dict as a company record. -/
def emptyCompanyRec : CompanyRec := ⟨"", "", []⟩

/-- The field subset hashed for a company. -/
def companyHashData (c : CompanyRec) : JRecord :=
  [("name", .jstr c.name), ("urls", .jlist c.urls)]

/-- The payload sent to Zapier for a company. -/
structure EzekiaCompany where
  folk_id : String
  name : String
  website : String
deriving DecidableEq

/-- The Folk-to-Ezekia field mapping for a company. -/
def mkEzekiaCompany (c : CompanyRec) : EzekiaCompany :=
  { folk_id := c.id, name := c.name, website := firstString c.urls }

/-- One attempted Zapier delivery for a company. -/
structure CompanyCall where
  isNew : Bool
  payload : EzekiaCompany
deriving DecidableEq

/-- The body of the companies loop for one snapshot entry. -/
def processCompany (urlNew urlUpd : String) (net : String → EzekiaCompany → HttpResult)
    (now : Int) (state : SyncState) (stats : Stats) (item : SnapItem CompanyRec) :
    SyncState × Stats × Option CompanyCall × Classification :=
  match resolveItem emptyCompanyRec item with
  | none => (state, { stats with errors := stats.errors + 1 }, none, .shapeError)
  | some company =>
    let folk_id := company.id
    if is_recently_synced state folk_id "ezekia" now then
      (state, { stats with skipped := stats.skipped + 1 }, none, .skippedSuppressed)
    else
      let current_hash := compute_hash (companyHashData company)
      let stored_hash := ((lookupA state.companies folk_id).map RecordEntry.hash).getD ""
      if current_hash = stored_hash then
        (state, { stats with skipped := stats.skipped + 1 }, none, .skippedUnchanged)
      else
        let ezekia_data := mkEzekiaCompany company
        let is_new := (lookupA state.companies folk_id).isNone
        let url := if is_new then urlNew else urlUpd
        let call : CompanyCall := ⟨is_new, ezekia_data⟩
        if send_to_zapier url (net url ezekia_data) then
          let st2 := { state with companies := alistSet state.companies folk_id ⟨current_hash, now⟩ }
          (mark_synced st2 folk_id "folk" now,
           { stats with synced := stats.synced + 1 }, some call, .syncedOk)
        else
          (state, { stats with errors := stats.errors + 1 }, some call, .deliveryError)

/-- The companies loop over a snapshot. -/
def runCompanies (urlNew urlUpd : String) (net : String → EzekiaCompany → HttpResult) (now : Int) :
    List (SnapItem CompanyRec) → SyncState → Stats → SyncState × Stats × List CompanyCall
  | [], st, stats => (st, stats, [])
  | item :: rest, st, stats =>
    let r := processCompany urlNew urlUpd net now st stats item
    let rr := runCompanies urlNew urlUpd net now rest r.1 r.2.1
    (rr.1, rr.2.1, r.2.2.1.toList ++ rr.2.2)

/-- sync_folk_companies_to_ezekia. -/
def sync_folk_companies_to_ezekia (urlNew urlUpd : String)
    (net : String → EzekiaCompany → HttpResult) (now : Int)
    (companies : List (SnapItem CompanyRec)) (state : SyncState) :
    SyncState × Stats × List CompanyCall :=
  match companies with
  | [] => (state, ⟨0, 0, 0⟩, [])
  | _ :: _ =>
    let r := runCompanies urlNew urlUpd net now companies state ⟨0, 0, 0⟩
    ({ r.1 with last_poll := some now }, r.2.1, r.2.2)

/-! ## Inbound (Ezekia to Folk) webhook handlers

The Folk client is an external collaborator; its responses are an oracle
parameter, and the handler result records the mutating and lookup calls the
handler issued. -/

/-- The folk_data dict the person handlers build (emails/phones/urls are
added only when the event carries a value). -/
structure FolkPersonData where
  firstName : String
  lastName : String
  jobTitle : String
  emails : Option String
  phones : Option String
  urls : Option String
deriving DecidableEq

/-- An inbound person event (each field is data.get(key, ""), so an empty
string is an absent field). -/
structure EzekiaPersonEvent where
  first_name : String
  last_name : String
  job_title : String
  email : String
  phone : String
  linkedin_url : String
deriving DecidableEq

/-- The Ezekia-to-Folk field mapping shared by the person handlers. -/
def mkFolkData (d : EzekiaPersonEvent) : FolkPersonData :=
  { firstName := d.first_name
    lastName := d.last_name
    jobTitle := d.job_title
    emails := if d.email ≠ "" then some d.email else none
    phones := if d.phone ≠ "" then some d.phone else none
    urls := if d.linkedin_url ≠ "" then some d.linkedin_url else none }

/-- A person as Folk lookups return it (the fields the handlers read). -/
structure FolkPerson where
  id : String
  firstName : String
  lastName : String
deriving DecidableEq

/-- A call made against the Folk API or the outbound note field. -/
inductive FolkCall
| searchEmail (email : String)
| searchName (fn ln : String)
| getOne (pid : String)
| createPerson (d : FolkPersonData)
| updatePerson (pid : String) (d : FolkPersonData)
| appendNoteField (pid gid note : String)
deriving DecidableEq

/-- Oracle for the Folk collaborator: lookup results and response codes. -/
structure FolkApi where
  searchByEmail : String → Option FolkPerson
  searchByName : String → String → Option FolkPerson
  getPerson : String → Option FolkPerson
  createStatus : FolkPersonData → Nat
  createdId : FolkPersonData → String
  updateStatus : String → FolkPersonData → Nat
  firstGroupId : Option String
  appendNoteStatus : String → String → String → Option Nat

/-- What a webhook handler returns and does: response status string and
HTTP code, the folk_id field when present, the saved state, and the Folk
calls issued. -/
structure HandlerResult where
  status : String
  httpCode : Nat
  folk_id : String
  state : SyncState
  calls : List FolkCall
deriving DecidableEq

/-- webhook_person_update: find by email when one is given, update the
match or fall back to creating; on a 200/201 mark the written id as synced
from ezekia. -/
def webhook_person_update (api : FolkApi) (now : Int) (d : EzekiaPersonEvent)
    (state : SyncState) : HandlerResult :=
  let folk_data := mkFolkData d
  let searchCalls := if d.email ≠ "" then [FolkCall.searchEmail d.email] else []
  let existing := if d.email ≠ "" then api.searchByEmail d.email else none
  match existing with
  | some p =>
    let code := api.updateStatus p.id folk_data
    let calls := searchCalls ++ [FolkCall.updatePerson p.id folk_data]
    if code = 200 ∨ code = 201 then
      ⟨"success", 200, p.id, mark_synced state p.id "ezekia" now, calls⟩
    else
      ⟨"error", 500, "", state, calls⟩
  | none =>
    let code := api.createStatus folk_data
    let calls := searchCalls ++ [FolkCall.createPerson folk_data]
    if code = 200 ∨ code = 201 then
      let folk_id := api.createdId folk_data
      ⟨"success", 200, folk_id, mark_synced state folk_id "ezekia" now, calls⟩
    else
      ⟨"error", 500, "", state, calls⟩

/-- webhook_company_update: acknowledges and does nothing else. -/
def webhook_company_update (data : List (String × String)) (state : SyncState) : HandlerResult :=
  ⟨"received", 200, "", state, []⟩

/-- An inbound note event (fields are data.get results; note_type already
carries its "note" default). -/
structure NoteEvent where
  email : String
  first_name : String
  last_name : String
  folk_id : String
  note : String
  note_type : String
  note_date : String
deriving DecidableEq

/-- ASCII whitespace test matching str.strip. -/
def isSpaceB (c : Char) : Bool := (9 ≤ c.toNat && c.toNat ≤ 13) || c.toNat == 32

/-- str.strip(). -/
def strTrim (s : String) : String :=
  ⟨((s.data.dropWhile isSpaceB).reverse.dropWhile isSpaceB).reverse⟩

/-- ASCII uppercasing of one character (str.upper on the ASCII data used). -/
def charUpper (c : Char) : Char :=
  if 97 ≤ c.toNat ∧ c.toNat ≤ 122 then Char.ofNat (c.toNat - 32) else c

/-- ASCII uppercasing of a string. -/
def strUpper (s : String) : String := ⟨s.data.map charUpper⟩

/-- The "[TYPE] (date) content" note text the handler builds. -/
def formatNote (note_type note_date note_content : String) : String :=
  "[" ++ strUpper note_type ++ "]" ++
    (if note_date ≠ "" then " (" ++ note_date ++ ")" else "") ++ " " ++ note_content

/-- webhook_note: reject an empty note, look the person up by folk_id, then
email, then name; a miss on all three is a hard 404; otherwise append to
the notes custom field and on success mark the person as synced from
ezekia. -/
def webhook_note (api : FolkApi) (now : Int) (d : NoteEvent) (state : SyncState) :
    HandlerResult :=
  let note_content := strTrim d.note
  if note_content = "" then ⟨"error", 400, "", state, []⟩
  else
    let c1 := if d.folk_id ≠ "" then [FolkCall.getOne d.folk_id] else []
    let p1 := if d.folk_id ≠ "" then api.getPerson d.folk_id else none
    let c2 := c1 ++ (if p1.isNone ∧ d.email ≠ "" then [FolkCall.searchEmail d.email] else [])
    let p2 := match p1 with
      | some p => some p
      | none => if d.email ≠ "" then api.searchByEmail d.email else none
    let c3 := c2 ++ (if p2.isNone ∧ (d.first_name ≠ "" ∨ d.last_name ≠ "") then
        [FolkCall.searchName d.first_name d.last_name] else [])
    let p3 := match p2 with
      | some p => some p
      | none =>
        if d.first_name ≠ "" ∨ d.last_name ≠ "" then
          api.searchByName d.first_name d.last_name
        else none
    match p3 with
    | none => ⟨"error", 404, "", state, c3⟩
    | some person =>
      match api.firstGroupId with
      | none => ⟨"error", 500, "", state, c3⟩
      | some group_id =>
        let formatted := formatNote d.note_type d.note_date note_content
        let calls := c3 ++ [FolkCall.appendNoteField person.id group_id formatted]
        match api.appendNoteStatus person.id group_id formatted with
        | some code =>
          if code = 200 ∨ code = 201 then
            ⟨"success", 200, person.id, mark_synced state person.id "ezekia" now, calls⟩
          else
            ⟨"error", 500, "", state, calls⟩
        | none => ⟨"error", 500, "", state, calls⟩

/-! ## Association-list lemmas (dict semantics) -/

theorem lookupA_alistSet_self {α : Type} : ∀ (l : List (String × α)) (k : String) (v : α),
    lookupA (alistSet l k v) k = some v := by
  intro l k v
  induction l with
  | nil => simp [alistSet, lookupA]
  | cons hd t ih =>
    obtain ⟨k2, w⟩ := hd
    by_cases hk : k2 = k
    · simp [alistSet, hk, lookupA]
    · simp [alistSet, hk, lookupA, ih]

theorem lookupA_alistSet_ne {α : Type} : ∀ (l : List (String × α)) (k k2 : String) (v : α),
    k2 ≠ k → lookupA (alistSet l k v) k2 = lookupA l k2 := by
  intro l k k2 v hne
  induction l with
  | nil => simp [alistSet, lookupA, Ne.symm hne]
  | cons hd t ih =>
    obtain ⟨k3, w⟩ := hd
    by_cases hk : k3 = k
    · subst hk
      simp [alistSet, lookupA, Ne.symm hne]
    · simp [alistSet, hk, lookupA, ih]

theorem lookupA_filter_pos {α : Type} (p : String × α → Bool) :
    ∀ (l : List (String × α)) (k : String) (v : α),
    lookupA l k = some v → p (k, v) = true → lookupA (l.filter p) k = some v := by
  intro l
  induction l with
  | nil => intro k v h _; simp [lookupA] at h
  | cons hd t ih =>
    intro k v h hp
    obtain ⟨k2, w⟩ := hd
    by_cases hk : k2 = k
    · subst hk
      simp [lookupA] at h
      subst h
      simp [List.filter, hp, lookupA]
    · simp [lookupA, hk] at h
      by_cases hphd : p (k2, w) = true
      · simp [List.filter, hphd, lookupA, hk]
        exact ih k v h hp
      · simp only [Bool.not_eq_true] at hphd
        simp [List.filter, hphd]
        exact ih k v h hp

theorem lookupA_filter_some {α : Type} (p : String × α → Bool) :
    ∀ (l : List (String × α)) (k : String) (v : α),
    lookupA (l.filter p) k = some v → p (k, v) = true := by
  intro l
  induction l with
  | nil => intro k v h; simp [lookupA] at h
  | cons hd t ih =>
    intro k v h
    obtain ⟨k2, w⟩ := hd
    by_cases hphd : p (k2, w) = true
    · rw [List.filter_cons_of_pos hphd] at h
      by_cases hk : k2 = k
      · subst hk
        simp [lookupA] at h
        subst h
        exact hphd
      · simp [lookupA, hk] at h
        exact ih k v h
    · simp only [Bool.not_eq_true] at hphd
      rw [List.filter_cons_of_neg (by simp [hphd])] at h
      exact ih k v h

theorem lookupA_none_of_not_mem {α : Type} : ∀ (l : List (String × α)) (k : String),
    k ∉ l.map Prod.fst → lookupA l k = none := by
  intro l
  induction l with
  | nil => intro k _; rfl
  | cons hd t ih =>
    intro k hk
    obtain ⟨k2, w⟩ := hd
    simp only [List.map_cons, List.mem_cons] at hk
    push_neg at hk
    simp [lookupA, Ne.symm hk.1]
    exact ih k hk.2

theorem lookupA_filter_none {α : Type} (p : String × α → Bool) :
    ∀ (l : List (String × α)) (k : String),
    lookupA l k = none → lookupA (l.filter p) k = none := by
  intro l
  induction l with
  | nil => intro k _; rfl
  | cons hd t ih =>
    intro k h
    obtain ⟨k2, w⟩ := hd
    by_cases hk : k2 = k
    · simp [lookupA, hk] at h
    · simp [lookupA, hk] at h
      by_cases hphd : p (k2, w) = true
      · simp [List.filter, hphd, lookupA, hk]
        exact ih k h
      · simp only [Bool.not_eq_true] at hphd
        simp [List.filter, hphd]
        exact ih k h

theorem lookupA_filter_nodup {α : Type} (p : String × α → Bool) :
    ∀ (l : List (String × α)) (k : String) (v : α),
    (l.map Prod.fst).Nodup → lookupA l k = some v → p (k, v) = false →
      lookupA (l.filter p) k = none := by
  intro l
  induction l with
  | nil => intro k v _ h _; simp [lookupA] at h
  | cons hd t ih =>
    intro k v hnd h hp
    obtain ⟨k2, w⟩ := hd
    simp only [List.map_cons, List.nodup_cons] at hnd
    by_cases hk : k2 = k
    · subst hk
      simp [lookupA] at h
      subst h
      simp [List.filter, hp]
      exact lookupA_filter_none p t k2 (lookupA_none_of_not_mem t k2 hnd.1)
    · simp [lookupA, hk] at h
      by_cases hphd : p (k2, w) = true
      · simp [List.filter, hphd, lookupA, hk]
        exact ih k v hnd.2 h hp
      · simp only [Bool.not_eq_true] at hphd
        simp [List.filter, hphd]
        exact ih k v hnd.2 h hp

theorem lookupA_mem {α : Type} : ∀ (l : List (String × α)) (k : String) (v : α),
    lookupA l k = some v → (k, v) ∈ l := by
  intro l
  induction l with
  | nil => intro k v h; simp [lookupA] at h
  | cons hd t ih =>
    intro k v h
    obtain ⟨k2, w⟩ := hd
    by_cases hk : k2 = k
    · subst hk
      simp [lookupA] at h
      subst h
      exact List.mem_cons_self _ _
    · simp [lookupA, hk] at h
      exact List.mem_cons_of_mem _ (ih k v h)

theorem lookupA_filter_sub_nodup {α : Type} (p : String × α → Bool) :
    ∀ (l : List (String × α)) (k : String) (v : α),
    (l.map Prod.fst).Nodup → lookupA (l.filter p) k = some v → lookupA l k = some v := by
  intro l
  induction l with
  | nil => intro k v _ h; simp [lookupA] at h
  | cons hd t ih =>
    intro k v hnd h
    obtain ⟨k2, w⟩ := hd
    simp only [List.map_cons, List.nodup_cons] at hnd
    by_cases hphd : p (k2, w) = true
    · rw [List.filter_cons_of_pos hphd] at h
      by_cases hk : k2 = k
      · subst hk
        simp [lookupA] at h ⊢
        exact h
      · simp [lookupA, hk] at h ⊢
        exact ih k v hnd.2 h
    · simp only [Bool.not_eq_true] at hphd
      rw [List.filter_cons_of_neg (by simp [hphd])] at h
      have ht := ih k v hnd.2 h
      by_cases hk : k2 = k
      · subst hk
        exact absurd (List.mem_map_of_mem Prod.fst (lookupA_mem t k2 v ht)) hnd.1
      · simp [lookupA, hk]
        exact ht

theorem mem_keys_alistSet {α : Type} : ∀ (l : List (String × α)) (k k2 : String) (v : α),
    k2 ∈ (alistSet l k v).map Prod.fst → k2 ∈ l.map Prod.fst ∨ k2 = k := by
  intro l
  induction l with
  | nil =>
    intro k k2 v h
    simp only [alistSet, List.map_cons, List.map_nil, List.mem_cons,
      List.not_mem_nil, or_false] at h
    exact Or.inr h
  | cons hd t ih =>
    intro k k2 v h
    obtain ⟨k3, w⟩ := hd
    simp only [alistSet] at h
    by_cases hk : k3 = k
    · rw [if_pos hk] at h
      simp only [List.map_cons, List.mem_cons] at h
      rcases h with h | h
      · exact Or.inr h
      · exact Or.inl (by
          simp only [List.map_cons, List.mem_cons]
          exact Or.inr h)
    · rw [if_neg hk] at h
      simp only [List.map_cons, List.mem_cons] at h
      rcases h with h | h
      · exact Or.inl (by
          simp only [List.map_cons, List.mem_cons]
          exact Or.inl h)
      · rcases ih k k2 v h with h2 | h2
        · exact Or.inl (by
            simp only [List.map_cons, List.mem_cons]
            exact Or.inr h2)
        · exact Or.inr h2

theorem alistSet_keys_nodup {α : Type} : ∀ (l : List (String × α)) (k : String) (v : α),
    (l.map Prod.fst).Nodup → ((alistSet l k v).map Prod.fst).Nodup := by
  intro l
  induction l with
  | nil =>
    intro k v _
    simp [alistSet]
  | cons hd t ih =>
    intro k v hnd
    obtain ⟨k3, w⟩ := hd
    simp only [List.map_cons, List.nodup_cons] at hnd
    simp only [alistSet]
    by_cases hk : k3 = k
    · rw [if_pos hk]
      simp only [List.map_cons, List.nodup_cons]
      subst hk
      exact hnd
    · rw [if_neg hk]
      simp only [List.map_cons, List.nodup_cons]
      refine ⟨fun hmem => ?_, ih k v hnd.2⟩
      rcases mem_keys_alistSet t k k3 v hmem with h | h
      · exact hnd.1 h
      · exact hk h

/-! ## mark_synced lookup lemmas -/

theorem mark_synced_lookup_self (st : SyncState) (id src : String) (now : Int) :
    lookupA (mark_synced st id src now).recent_syncs (mkKey src id) = some now := by
  unfold mark_synced
  apply lookupA_filter_pos
  · exact lookupA_alistSet_self _ _ _
  · simp only [decide_eq_true_eq]
    omega

theorem mark_synced_lookup_other {st : SyncState} {id src : String} {now : Int}
    {k : String} {v : Int} (hnd : (st.recent_syncs.map Prod.fst).Nodup)
    (hne : k ≠ mkKey src id) :
    lookupA (mark_synced st id src now).recent_syncs k = some v →
      lookupA st.recent_syncs k = some v := by
  intro h
  unfold mark_synced at h
  have h2 := lookupA_filter_sub_nodup _ _ _ _ (alistSet_keys_nodup _ _ _ hnd) h
  rwa [lookupA_alistSet_ne _ _ _ _ hne] at h2

theorem mark_synced_keys_nodup (st : SyncState) (id src : String) (now : Int)
    (hnd : (st.recent_syncs.map Prod.fst).Nodup) :
    ((mark_synced st id src now).recent_syncs.map Prod.fst).Nodup := by
  unfold mark_synced
  exact ((List.filter_sublist _).map Prod.fst).nodup (alistSet_keys_nodup _ _ _ hnd)

/-! ## Sorted permutations with distinct keys coincide -/

theorem sorted_perm_nodupkeys_eq {β : Type} :
    ∀ (l₁ l₂ : List (String × β)), l₁.Perm l₂ → l₁.Sorted keyLe → l₂.Sorted keyLe →
      (l₁.map Prod.fst).Nodup → l₁ = l₂ := by
  intro l₁
  induction l₁ with
  | nil =>
    intro l₂ hp _ _ _
    exact hp.nil_eq
  | cons a t₁ ih =>
    intro l₂ hp hs₁ hs₂ hnd
    cases l₂ with
    | nil => exact absurd (hp.subset (List.mem_cons_self a t₁)) (List.not_mem_nil a)
    | cons b t₂ =>
      have hab : a = b := by
        by_contra hne
        have ha2 : a ∈ t₂ := by
          have := hp.subset (List.mem_cons_self a t₁)
          rcases List.mem_cons.mp this with h | h
          · exact absurd h hne
          · exact h
        have hb2 : b ∈ t₁ := by
          have := hp.symm.subset (List.mem_cons_self b t₂)
          rcases List.mem_cons.mp this with h | h
          · exact absurd h.symm hne
          · exact h
        have h1 : keyLe a b := (List.sorted_cons.mp hs₁).1 b hb2
        have h2 : keyLe b a := (List.sorted_cons.mp hs₂).1 a ha2
        have hk : a.1 = b.1 := string_ext (charListLe_antisymm _ _ h1 h2)
        have hnotin : a.1 ∉ t₁.map Prod.fst := (List.nodup_cons.mp (by simpa using hnd)).1
        exact hnotin (hk ▸ List.mem_map_of_mem Prod.fst hb2)
      subst hab
      have hp2 : t₁.Perm t₂ := hp.cons_inv
      rw [ih t₂ hp2 (List.sorted_cons.mp hs₁).2 (List.sorted_cons.mp hs₂).2
        (List.nodup_cons.mp (by simpa using hnd)).2]

theorem insertionSort_perm_congr (f g : JRecord) (hp : f.Perm g)
    (hnd : (f.map Prod.fst).Nodup) :
    List.insertionSort keyLe f = List.insertionSort keyLe g := by
  apply sorted_perm_nodupkeys_eq
  · exact (List.perm_insertionSort keyLe f).trans (hp.trans (List.perm_insertionSort keyLe g).symm)
  · exact List.sorted_insertionSort keyLe f
  · exact List.sorted_insertionSort keyLe g
  · exact ((List.perm_insertionSort keyLe f).map Prod.fst).symm.nodup hnd

/-! ## Characterization of the suppressor -/

theorem is_recently_synced_iff (st : SyncState) (id src : String) (now : Int) :
    is_recently_synced st id src now = true ↔
      ∃ t, lookupA st.recent_syncs (mkKey src id) = some t ∧ now - t < SYNC_COOLDOWN := by
  unfold is_recently_synced
  cases h : lookupA st.recent_syncs (mkKey src id) with
  | none => simp
  | some t0 => simp

theorem not_suppressed_later (st : SyncState) (id src : String) (now now2 : Int)
    (hle : now ≤ now2) (h : is_recently_synced st id src now = false) :
    is_recently_synced st id src now2 = false := by
  cases hb : is_recently_synced st id src now2 with
  | false => rfl
  | true =>
    obtain ⟨t, hl, hlt⟩ := (is_recently_synced_iff st id src now2).mp hb
    have h2 : is_recently_synced st id src now = true :=
      (is_recently_synced_iff st id src now).mpr ⟨t, hl, by omega⟩
    rw [h] at h2
    cases h2

theorem data_append (s t : String) : (s ++ t).data = s.data ++ t.data := rfl

theorem mkKey_ezekia_ne_folk (x : String) : mkKey "ezekia" x ≠ mkKey "folk" x := by
  intro h
  have h2 := congrArg String.data h
  rw [mkKey, mkKey, data_append, data_append, data_append, data_append] at h2
  have h4 := congrArg List.length h2
  simp [List.length_append] at h4
  omega

/-! ## Claims about the suppressor -/

/-- C3: is_recently_synced st id src now is true exactly when a
recent_syncs entry for (src, id) exists with now minus its timestamp
strictly under the 5-minute cooldown; a record marked at time T is
suppressed when checked at T + 299 s (4m59s) and not at T + 301 s (5m1s). -/
theorem C3_cooldown_window :
    (∀ (st : SyncState) (id src : String) (now : Int),
      is_recently_synced st id src now = true ↔
        ∃ t, lookupA st.recent_syncs (mkKey src id) = some t ∧ now - t < SYNC_COOLDOWN) ∧
    (∀ (st : SyncState) (id src : String) (t : Int),
      is_recently_synced (mark_synced st id src t) id src (t + 299) = true ∧
      is_recently_synced (mark_synced st id src t) id src (t + 301) = false) := by
  refine ⟨is_recently_synced_iff, ?_⟩
  intro st id src t
  constructor
  · exact (is_recently_synced_iff _ _ _ _).mpr
      ⟨t, mark_synced_lookup_self st id src t, by simp [SYNC_COOLDOWN]⟩
  · cases hb : is_recently_synced (mark_synced st id src t) id src (t + 301) with
    | false => rfl
    | true =>
      exfalso
      obtain ⟨t0, hl, hlt⟩ := (is_recently_synced_iff _ _ _ _).mp hb
      rw [mark_synced_lookup_self] at hl
      cases hl
      simp [SYNC_COOLDOWN] at hlt

/-- C3 witness at a concrete state and concrete times. -/
theorem C3_witness :
    is_recently_synced (mark_synced ⟨none, [], [], []⟩ "p1" "ezekia" 1000) "p1" "ezekia" 1299 = true ∧
    is_recently_synced (mark_synced ⟨none, [], [], []⟩ "p1" "ezekia" 1000) "p1" "ezekia" 1301 = false :=
  C3_cooldown_window.2 ⟨none, [], [], []⟩ "p1" "ezekia" 1000

/-- C4: mark_synced writes now at the (source, record) key; every surviving
recent_syncs entry is within the 1-hour retention window; and any other
entry older than the window is removed and can never again make
is_recently_synced true. -/
theorem C4_mark_inserts_and_prunes :
    ∀ (st : SyncState) (id src : String) (now : Int),
      lookupA (mark_synced st id src now).recent_syncs (mkKey src id) = some now ∧
      (∀ k t, lookupA (mark_synced st id src now).recent_syncs k = some t → now - t < 3600) ∧
      ((st.recent_syncs.map Prod.fst).Nodup →
        ∀ k t, lookupA st.recent_syncs k = some t → now - t > 3600 → k ≠ mkKey src id →
          lookupA (mark_synced st id src now).recent_syncs k = none ∧
          ∀ rid s (n2 : Int), mkKey s rid = k →
            is_recently_synced (mark_synced st id src now) rid s n2 = false) := by
  intro st id src now
  refine ⟨mark_synced_lookup_self st id src now, ?_, ?_⟩
  · intro k t h
    simp only [mark_synced] at h
    have hp := lookupA_filter_some _ _ _ _ h
    simp only [decide_eq_true_eq] at hp
    omega
  · intro hnd k t hl hold hne
    have hremoved : lookupA (mark_synced st id src now).recent_syncs k = none := by
      simp only [mark_synced]
      apply lookupA_filter_nodup _ _ _ t (alistSet_keys_nodup _ _ _ hnd)
      · rw [lookupA_alistSet_ne _ _ _ _ hne]
        exact hl
      · simp only [decide_eq_false_iff_not]
        omega
    refine ⟨hremoved, ?_⟩
    intro rid s n2 hk
    cases hb : is_recently_synced (mark_synced st id src now) rid s n2 with
    | false => rfl
    | true =>
      exfalso
      obtain ⟨t0, hl2, _⟩ := (is_recently_synced_iff _ _ _ _).mp hb
      rw [hk, hremoved] at hl2
      cases hl2

/-- C4 witness: marking prunes a 10000-second-old entry and keeps the new
mark. -/
theorem C4_witness :
    lookupA (mark_synced ⟨none, [], [], [("ezekia:old", 0)]⟩ "p1" "folk" 10000).recent_syncs
      (mkKey "folk" "p1") = some 10000 ∧
    lookupA (mark_synced ⟨none, [], [], [("ezekia:old", 0)]⟩ "p1" "folk" 10000).recent_syncs
      "ezekia:old" = none ∧
    is_recently_synced (mark_synced ⟨none, [], [], [("ezekia:old", 0)]⟩ "p1" "folk" 10000)
      "old" "ezekia" 10 = false := by
  have h := C4_mark_inserts_and_prunes ⟨none, [], [], [("ezekia:old", 0)]⟩ "p1" "folk" 10000
  have h3 := h.2.2 (by decide) "ezekia:old" 0 (by decide) (by decide) (by decide)
  exact ⟨h.1, h3.1, h3.2 "old" "ezekia" 10 (by decide)⟩

/-- C8: a mark from the folk source never turns an ezekia-keyed suppression
check from false to true, and symmetrically, because the key pairs the
source with the record id. -/
theorem C8_directional_independence :
    ∀ (st : SyncState) (id : String) (t now : Int),
      (st.recent_syncs.map Prod.fst).Nodup →
      (is_recently_synced (mark_synced st id "folk" t) id "ezekia" now = true →
        is_recently_synced st id "ezekia" now = true) ∧
      (is_recently_synced (mark_synced st id "ezekia" t) id "folk" now = true →
        is_recently_synced st id "folk" now = true) := by
  intro st id t now hnd
  constructor
  · intro hb
    obtain ⟨t0, hl, hlt⟩ := (is_recently_synced_iff _ _ _ _).mp hb
    have hl2 := mark_synced_lookup_other hnd (mkKey_ezekia_ne_folk id) hl
    exact (is_recently_synced_iff _ _ _ _).mpr ⟨t0, hl2, hlt⟩
  · intro hb
    obtain ⟨t0, hl, hlt⟩ := (is_recently_synced_iff _ _ _ _).mp hb
    have hl2 := mark_synced_lookup_other hnd (Ne.symm (mkKey_ezekia_ne_folk id)) hl
    exact (is_recently_synced_iff _ _ _ _).mpr ⟨t0, hl2, hlt⟩

/-- C8 witness: an existing ezekia mark still suppresses after a folk mark,
tracing back to the original entry. -/
theorem C8_witness :
    is_recently_synced ⟨none, [], [], [("ezekia:p1", 100)]⟩ "p1" "ezekia" 200 = true :=
  (C8_directional_independence ⟨none, [], [], [("ezekia:p1", 100)]⟩ "p1" 150 200
    (by decide)).1 (by decide)

/-! ## Claims about the fingerprint -/

/-- C2 counterexample: two records identical except for the order of the
elements of the emails list produce different digests, so the claim that
reordering order-insignificant lists preserves the fingerprint fails. -/
theorem C2_counterexample :
    compute_hash [("emails", .jlist [.jstr "a@x.com", .jstr "b@x.com"]),
        ("firstName", .jstr "Jo")] ≠
      compute_hash [("emails", .jlist [.jstr "b@x.com", .jstr "a@x.com"]),
        ("firstName", .jstr "Jo")] := by
  decide

/-- C2 (amended): reordering the keys of the field subset never changes the
digest, because sort_keys=True sorts object keys before serializing; the
order of elements inside list-valued fields is preserved verbatim by the
serialization, so reordering a list such as emails can change the digest. -/
theorem C2_key_order_invariance :
    ∀ f g : JRecord, f.Perm g → (f.map Prod.fst).Nodup → compute_hash f = compute_hash g := by
  intro f g hp hnd
  unfold compute_hash jsonDumpsSorted
  rw [insertionSort_perm_congr f g hp hnd]

/-- C2 witness: swapping the two keys of a concrete record keeps the
digest. -/
theorem C2_witness :
    compute_hash [("firstName", .jstr "Jo"), ("emails", .jlist [.jstr "a@x.com"])] =
      compute_hash [("emails", .jlist [.jstr "a@x.com"]), ("firstName", .jstr "Jo")] :=
  C2_key_order_invariance _ _ (List.Perm.swap _ _ _) (by decide)

/-! ## Claim about the inbound company-update handler -/

/-- C9: the company-update handler only acknowledges: status "received",
state untouched, no remote calls. -/
theorem C9_company_update_pure_ack :
    ∀ (data : List (String × String)) (st : SyncState),
      (webhook_company_update data st).status = "received" ∧
      (webhook_company_update data st).httpCode = 200 ∧
      (webhook_company_update data st).state = st ∧
      (webhook_company_update data st).calls = [] := by
  intro data st
  exact ⟨rfl, rfl, rfl, rfl⟩

/-! ## Claims about the outbound batch flow -/

/-- C1 counterexample: with a recent_syncs entry keyed folk:p1 (source
system B) the suppression predicate on source B holds, yet the record is
not classified as suppression-skipped; the gate reads the ezekia key. -/
theorem C1_counterexample :
    is_recently_synced ⟨none, [], [], [("folk:p1", 0)]⟩ "p1" "folk" 10 = true ∧
    (processPerson "u" "u" (fun _ _ => HttpResult.status 200) 10
        ⟨none, [], [], [("folk:p1", 0)]⟩ ⟨0, 0, 0⟩
        (SnapItem.dict ⟨"p1", "Jo", "", [], [], "", [], "", []⟩)).2.2.2 =
      Classification.syncedOk := by
  decide

/-- C1 (amended): in both outbound loops a resolved record is classified as
suppression-skipped exactly when is_recently_synced holds for it with
source "ezekia" (system A, the inbound source), not "folk" (system B). -/
theorem C1_suppression_keyed_on_inbound :
    (∀ (u1 u2 : String) (net : String → EzekiaPerson → HttpResult) (now : Int)
        (st : SyncState) (stats : Stats) (item : SnapItem PersonRec) (p : PersonRec),
      resolveItem emptyPersonRec item = some p →
      ((processPerson u1 u2 net now st stats item).2.2.2 = Classification.skippedSuppressed ↔
        is_recently_synced st p.id "ezekia" now = true)) ∧
    (∀ (u1 u2 : String) (net : String → EzekiaCompany → HttpResult) (now : Int)
        (st : SyncState) (stats : Stats) (item : SnapItem CompanyRec) (c : CompanyRec),
      resolveItem emptyCompanyRec item = some c →
      ((processCompany u1 u2 net now st stats item).2.2.2 = Classification.skippedSuppressed ↔
        is_recently_synced st c.id "ezekia" now = true)) := by
  constructor
  · intro u1 u2 net now st stats item p hres
    simp only [processPerson, hres]
    cases hsup : is_recently_synced st p.id "ezekia" now with
    | true => simp [hsup]
    | false => split_ifs <;> simp_all
  · intro u1 u2 net now st stats item c hres
    simp only [processCompany, hres]
    cases hsup : is_recently_synced st c.id "ezekia" now with
    | true => simp [hsup]
    | false => split_ifs <;> simp_all

/-- C1 witness: a record with an ezekia mark 10 seconds old is classified
as suppression-skipped. -/
theorem C1_witness :
    (processPerson "u" "u" (fun _ _ => HttpResult.status 200) 60
        ⟨none, [], [], [("ezekia:p2", 50)]⟩ ⟨0, 0, 0⟩
        (SnapItem.dict ⟨"p2", "A", "", [], [], "", [], "", []⟩)).2.2.2 =
      Classification.skippedSuppressed :=
  (C1_suppression_keyed_on_inbound.1 "u" "u" (fun _ _ => HttpResult.status 200) 60
    ⟨none, [], [], [("ezekia:p2", 50)]⟩ ⟨0, 0, 0⟩
    (SnapItem.dict ⟨"p2", "A", "", [], [], "", [], "", []⟩)
    ⟨"p2", "A", "", [], [], "", [], "", []⟩ rfl).mpr (by decide)

/-- C5: a resolved, non-suppressed record whose fingerprint equals the
stored one is classified skipped-unchanged, with no delivery attempted and
the state returned untouched, in both outbound loops. -/
theorem C5_unchanged_fingerprint_skips :
    (∀ (u1 u2 : String) (net : String → EzekiaPerson → HttpResult) (now : Int)
        (st : SyncState) (stats : Stats) (item : SnapItem PersonRec) (p : PersonRec),
      resolveItem emptyPersonRec item = some p →
      is_recently_synced st p.id "ezekia" now = false →
      compute_hash (personHashData p) = ((lookupA st.people p.id).map RecordEntry.hash).getD "" →
      processPerson u1 u2 net now st stats item =
        (st, { stats with skipped := stats.skipped + 1 }, none,
          Classification.skippedUnchanged)) ∧
    (∀ (u1 u2 : String) (net : String → EzekiaCompany → HttpResult) (now : Int)
        (st : SyncState) (stats : Stats) (item : SnapItem CompanyRec) (c : CompanyRec),
      resolveItem emptyCompanyRec item = some c →
      is_recently_synced st c.id "ezekia" now = false →
      compute_hash (companyHashData c) =
        ((lookupA st.companies c.id).map RecordEntry.hash).getD "" →
      processCompany u1 u2 net now st stats item =
        (st, { stats with skipped := stats.skipped + 1 }, none,
          Classification.skippedUnchanged)) := by
  constructor
  · intro u1 u2 net now st stats item p hres hsup hhash
    simp [processPerson, hres, hsup, hhash]
  · intro u1 u2 net now st stats item c hres hsup hhash
    simp [processCompany, hres, hsup, hhash]

/-- C5 witness: re-processing a record whose stored fingerprint matches is
a skip that changes nothing. -/
theorem C5_witness :
    processPerson "u" "u" (fun _ _ => HttpResult.status 200) 99
      ⟨none, [("p1", ⟨compute_hash (personHashData ⟨"p1", "Jo", "", [], [], "", [], "", []⟩), 0⟩)],
        [], []⟩
      ⟨0, 0, 0⟩ (SnapItem.dict ⟨"p1", "Jo", "", [], [], "", [], "", []⟩) =
      (⟨none, [("p1", ⟨compute_hash (personHashData ⟨"p1", "Jo", "", [], [], "", [], "", []⟩), 0⟩)],
        [], []⟩,
       ⟨0, 1, 0⟩, none, Classification.skippedUnchanged) :=
  C5_unchanged_fingerprint_skips.1 "u" "u" (fun _ _ => HttpResult.status 200) 99 _ ⟨0, 0, 0⟩ _ _
    rfl (by decide) rfl

/-- C6: when delivery for a new/changed person fails, the error tally is
incremented and the returned state is exactly the input state (no
fingerprint write, no suppression mark), so reprocessing the same record at
any later time is again not classified as either kind of skip. -/
theorem C6_delivery_failure_preserves_state :
    ∀ (u1 u2 : String) (net : String → EzekiaPerson → HttpResult) (now : Int)
      (st : SyncState) (stats : Stats) (item : SnapItem PersonRec) (p : PersonRec),
      resolveItem emptyPersonRec item = some p →
      is_recently_synced st p.id "ezekia" now = false →
      compute_hash (personHashData p) ≠ ((lookupA st.people p.id).map RecordEntry.hash).getD "" →
      send_to_zapier (if (lookupA st.people p.id).isNone then u1 else u2)
        (net (if (lookupA st.people p.id).isNone then u1 else u2) (mkEzekiaPerson p)) = false →
      processPerson u1 u2 net now st stats item =
        (st, { stats with errors := stats.errors + 1 },
          some ⟨(lookupA st.people p.id).isNone, mkEzekiaPerson p⟩,
          Classification.deliveryError) ∧
      (∀ (now2 : Int) (u1b u2b : String) (netb : String → EzekiaPerson → HttpResult),
        now ≤ now2 →
        (processPerson u1b u2b netb now2 st stats item).2.2.2 ≠
          Classification.skippedSuppressed ∧
        (processPerson u1b u2b netb now2 st stats item).2.2.2 ≠
          Classification.skippedUnchanged) := by
  intro u1 u2 net now st stats item p hres hsup hhash hsend
  constructor
  · simp only [Option.isNone_iff_eq_none] at hsend
    simp [processPerson, hres, hsup, hhash, hsend]
  · intro now2 u1b u2b netb hle
    have hsup2 := not_suppressed_later st p.id "ezekia" now now2 hle hsup
    simp only [processPerson, hres, hsup2]
    constructor <;> split_ifs <;> simp_all

/-- C6 witness: a timeout-style failure on a fresh record leaves everything
unchanged and tallies one error. -/
theorem C6_witness :
    processPerson "u" "u" (fun _ _ => HttpResult.exn) 7 ⟨none, [], [], []⟩ ⟨0, 0, 0⟩
        (SnapItem.dict ⟨"p1", "Jo", "", [], [], "", [], "", []⟩) =
      (⟨none, [], [], []⟩, ⟨0, 0, 1⟩,
        some ⟨true, mkEzekiaPerson ⟨"p1", "Jo", "", [], [], "", [], "", []⟩⟩,
        Classification.deliveryError) :=
  (C6_delivery_failure_preserves_state "u" "u" (fun _ _ => HttpResult.exn) 7
    ⟨none, [], [], []⟩ ⟨0, 0, 0⟩ (SnapItem.dict ⟨"p1", "Jo", "", [], [], "", [], "", []⟩)
    ⟨"p1", "Jo", "", [], [], "", [], "", []⟩ rfl (by decide) (by decide) (by decide)).1

/-- The per-entry step computes the same state, delivery and classification
for any starting tally, and changes each tally field by the same amount. -/
theorem processPerson_stats_shift (u1 u2 : String) (net : String → EzekiaPerson → HttpResult)
    (now : Int) (st : SyncState) (item : SnapItem PersonRec) (s1 s2 : Stats) :
    (processPerson u1 u2 net now st s1 item).1 = (processPerson u1 u2 net now st s2 item).1 ∧
    (processPerson u1 u2 net now st s1 item).2.2 = (processPerson u1 u2 net now st s2 item).2.2 ∧
    (processPerson u1 u2 net now st s1 item).2.1.synced + s2.synced =
      (processPerson u1 u2 net now st s2 item).2.1.synced + s1.synced ∧
    (processPerson u1 u2 net now st s1 item).2.1.skipped + s2.skipped =
      (processPerson u1 u2 net now st s2 item).2.1.skipped + s1.skipped ∧
    (processPerson u1 u2 net now st s1 item).2.1.errors + s2.errors =
      (processPerson u1 u2 net now st s2 item).2.1.errors + s1.errors := by
  cases hres : resolveItem emptyPersonRec item with
  | none => simp [processPerson, hres]; omega
  | some p =>
    simp only [processPerson, hres]
    split_ifs <;> refine ⟨rfl, rfl, ?_, ?_, ?_⟩ <;> simp <;> omega

theorem runPeople_stats_shift (u1 u2 : String) (net : String → EzekiaPerson → HttpResult)
    (now : Int) :
    ∀ (l : List (SnapItem PersonRec)) (st : SyncState) (s1 s2 : Stats),
      (runPeople u1 u2 net now l st s1).1 = (runPeople u1 u2 net now l st s2).1 ∧
      (runPeople u1 u2 net now l st s1).2.2 = (runPeople u1 u2 net now l st s2).2.2 ∧
      (runPeople u1 u2 net now l st s1).2.1.synced + s2.synced =
        (runPeople u1 u2 net now l st s2).2.1.synced + s1.synced ∧
      (runPeople u1 u2 net now l st s1).2.1.skipped + s2.skipped =
        (runPeople u1 u2 net now l st s2).2.1.skipped + s1.skipped ∧
      (runPeople u1 u2 net now l st s1).2.1.errors + s2.errors =
        (runPeople u1 u2 net now l st s2).2.1.errors + s1.errors := by
  intro l
  induction l with
  | nil => intro st s1 s2; simp [runPeople]; omega
  | cons item rest ih =>
    intro st s1 s2
    obtain ⟨hst, hcc, hs, hk, he⟩ := processPerson_stats_shift u1 u2 net now st item s1 s2
    simp only [runPeople]
    rw [hst, hcc]
    obtain ⟨Hst, Hcc, Hs, Hk, He⟩ := ih (processPerson u1 u2 net now st s2 item).1
      (processPerson u1 u2 net now st s1 item).2.1 (processPerson u1 u2 net now st s2 item).2.1
    rw [Hst, Hcc]
    refine ⟨rfl, rfl, ?_, ?_, ?_⟩ <;> omega

theorem processCompany_stats_shift (u1 u2 : String) (net : String → EzekiaCompany → HttpResult)
    (now : Int) (st : SyncState) (item : SnapItem CompanyRec) (s1 s2 : Stats) :
    (processCompany u1 u2 net now st s1 item).1 = (processCompany u1 u2 net now st s2 item).1 ∧
    (processCompany u1 u2 net now st s1 item).2.2 =
      (processCompany u1 u2 net now st s2 item).2.2 ∧
    (processCompany u1 u2 net now st s1 item).2.1.synced + s2.synced =
      (processCompany u1 u2 net now st s2 item).2.1.synced + s1.synced ∧
    (processCompany u1 u2 net now st s1 item).2.1.skipped + s2.skipped =
      (processCompany u1 u2 net now st s2 item).2.1.skipped + s1.skipped ∧
    (processCompany u1 u2 net now st s1 item).2.1.errors + s2.errors =
      (processCompany u1 u2 net now st s2 item).2.1.errors + s1.errors := by
  cases hres : resolveItem emptyCompanyRec item with
  | none => simp [processCompany, hres]; omega
  | some c =>
    simp only [processCompany, hres]
    split_ifs <;> refine ⟨rfl, rfl, ?_, ?_, ?_⟩ <;> simp <;> omega

theorem runCompanies_stats_shift (u1 u2 : String) (net : String → EzekiaCompany → HttpResult)
    (now : Int) :
    ∀ (l : List (SnapItem CompanyRec)) (st : SyncState) (s1 s2 : Stats),
      (runCompanies u1 u2 net now l st s1).1 = (runCompanies u1 u2 net now l st s2).1 ∧
      (runCompanies u1 u2 net now l st s1).2.2 = (runCompanies u1 u2 net now l st s2).2.2 ∧
      (runCompanies u1 u2 net now l st s1).2.1.synced + s2.synced =
        (runCompanies u1 u2 net now l st s2).2.1.synced + s1.synced ∧
      (runCompanies u1 u2 net now l st s1).2.1.skipped + s2.skipped =
        (runCompanies u1 u2 net now l st s2).2.1.skipped + s1.skipped ∧
      (runCompanies u1 u2 net now l st s1).2.1.errors + s2.errors =
        (runCompanies u1 u2 net now l st s2).2.1.errors + s1.errors := by
  intro l
  induction l with
  | nil => intro st s1 s2; simp [runCompanies]; omega
  | cons item rest ih =>
    intro st s1 s2
    obtain ⟨hst, hcc, hs, hk, he⟩ := processCompany_stats_shift u1 u2 net now st item s1 s2
    simp only [runCompanies]
    rw [hst, hcc]
    obtain ⟨Hst, Hcc, Hs, Hk, He⟩ := ih (processCompany u1 u2 net now st s2 item).1
      (processCompany u1 u2 net now st s1 item).2.1 (processCompany u1 u2 net now st s2 item).2.1
    rw [Hst, Hcc]
    refine ⟨rfl, rfl, ?_, ?_, ?_⟩ <;> omega

/-- C7 counterexample: the snapshot entry ["x"] (a nonempty list whose
first element is not a dict) is not a record of the expected shape, yet the
batch tallies it as synced with zero errors: the loop replaces it with an
empty dict and delivers it. -/
theorem C7_counterexample :
    (sync_folk_people_to_ezekia "u" "u" (fun _ _ => HttpResult.status 201) 100
        [SnapItem.listHeadOther] ⟨none, [], [], []⟩).2.1 = ⟨1, 0, 0⟩ := by
  decide

/-- C7 (amended): an entry that is still not a dict after the
list-unwrapping step (a non-dict non-list value, or an empty list) adds
exactly one error and otherwise leaves the batch unchanged: same final
state, same deliveries, same synced and skipped tallies as if the entry
were absent, in both outbound loops.  A nonempty list whose first element
is a dict is processed as that dict, and a nonempty list whose first
element is not a dict is processed as an empty record rather than counted
as an error. -/
theorem C7_nondict_entry_isolated :
    (∀ (u1 u2 : String) (net : String → EzekiaPerson → HttpResult) (now : Int)
        (l1 l2 : List (SnapItem PersonRec)) (st : SyncState) (stats : Stats)
        (bad : SnapItem PersonRec),
      resolveItem emptyPersonRec bad = none →
      (runPeople u1 u2 net now (l1 ++ bad :: l2) st stats).1 =
        (runPeople u1 u2 net now (l1 ++ l2) st stats).1 ∧
      (runPeople u1 u2 net now (l1 ++ bad :: l2) st stats).2.2 =
        (runPeople u1 u2 net now (l1 ++ l2) st stats).2.2 ∧
      (runPeople u1 u2 net now (l1 ++ bad :: l2) st stats).2.1.errors =
        (runPeople u1 u2 net now (l1 ++ l2) st stats).2.1.errors + 1 ∧
      (runPeople u1 u2 net now (l1 ++ bad :: l2) st stats).2.1.synced =
        (runPeople u1 u2 net now (l1 ++ l2) st stats).2.1.synced ∧
      (runPeople u1 u2 net now (l1 ++ bad :: l2) st stats).2.1.skipped =
        (runPeople u1 u2 net now (l1 ++ l2) st stats).2.1.skipped) ∧
    (∀ (u1 u2 : String) (net : String → EzekiaCompany → HttpResult) (now : Int)
        (l1 l2 : List (SnapItem CompanyRec)) (st : SyncState) (stats : Stats)
        (bad : SnapItem CompanyRec),
      resolveItem emptyCompanyRec bad = none →
      (runCompanies u1 u2 net now (l1 ++ bad :: l2) st stats).1 =
        (runCompanies u1 u2 net now (l1 ++ l2) st stats).1 ∧
      (runCompanies u1 u2 net now (l1 ++ bad :: l2) st stats).2.2 =
        (runCompanies u1 u2 net now (l1 ++ l2) st stats).2.2 ∧
      (runCompanies u1 u2 net now (l1 ++ bad :: l2) st stats).2.1.errors =
        (runCompanies u1 u2 net now (l1 ++ l2) st stats).2.1.errors + 1 ∧
      (runCompanies u1 u2 net now (l1 ++ bad :: l2) st stats).2.1.synced =
        (runCompanies u1 u2 net now (l1 ++ l2) st stats).2.1.synced ∧
      (runCompanies u1 u2 net now (l1 ++ bad :: l2) st stats).2.1.skipped =
        (runCompanies u1 u2 net now (l1 ++ l2) st stats).2.1.skipped) ∧
    (∀ (α : Type) (e p : α),
      resolveItem e (SnapItem.dict p) = some p ∧
      resolveItem e (SnapItem.listHeadDict p) = some p ∧
      resolveItem e (SnapItem.listHeadOther : SnapItem α) = some e ∧
      resolveItem e (SnapItem.other : SnapItem α) = none ∧
      resolveItem e (SnapItem.listNil : SnapItem α) = none) := by
  refine ⟨?_, ?_, ?_⟩
  · intro u1 u2 net now l1
    induction l1 with
    | nil =>
      intro l2 st stats bad hbad
      simp only [List.nil_append, runPeople, processPerson, hbad]
      obtain ⟨Hst, Hcc, Hs, Hk, He⟩ := runPeople_stats_shift u1 u2 net now l2 st
        { stats with errors := stats.errors + 1 } stats
      rw [Hst, Hcc]
      refine ⟨rfl, by simp, ?_, ?_, ?_⟩ <;> simp at Hs Hk He ⊢ <;> omega
    | cons item rest ih =>
      intro l2 st stats bad hbad
      simp only [List.cons_append, runPeople, List.append_eq]
      obtain ⟨Hst, Hcc, He, Hs, Hk⟩ := ih l2 (processPerson u1 u2 net now st stats item).1
        (processPerson u1 u2 net now st stats item).2.1 bad hbad
      rw [Hst, Hcc]
      refine ⟨rfl, rfl, ?_, ?_, ?_⟩ <;> omega
  · intro u1 u2 net now l1
    induction l1 with
    | nil =>
      intro l2 st stats bad hbad
      simp only [List.nil_append, runCompanies, processCompany, hbad]
      obtain ⟨Hst, Hcc, Hs, Hk, He⟩ := runCompanies_stats_shift u1 u2 net now l2 st
        { stats with errors := stats.errors + 1 } stats
      rw [Hst, Hcc]
      refine ⟨rfl, by simp, ?_, ?_, ?_⟩ <;> simp at Hs Hk He ⊢ <;> omega
    | cons item rest ih =>
      intro l2 st stats bad hbad
      simp only [List.cons_append, runCompanies, List.append_eq]
      obtain ⟨Hst, Hcc, He, Hs, Hk⟩ := ih l2 (processCompany u1 u2 net now st stats item).1
        (processCompany u1 u2 net now st stats item).2.1 bad hbad
      rw [Hst, Hcc]
      refine ⟨rfl, rfl, ?_, ?_, ?_⟩ <;> omega
  · intro α e p
    exact ⟨rfl, rfl, rfl, rfl, rfl⟩

/-- C7 witness: one genuinely non-dict entry among one valid entry gives
one error and the valid record still syncs, exactly as without it. -/
theorem C7_witness :
    (runPeople "u" "u" (fun _ _ => HttpResult.status 200) 5
        [SnapItem.dict ⟨"p1", "Jo", "", [], [], "", [], "", []⟩, SnapItem.other]
        ⟨none, [], [], []⟩ ⟨0, 0, 0⟩).2.1.errors =
      (runPeople "u" "u" (fun _ _ => HttpResult.status 200) 5
        [SnapItem.dict ⟨"p1", "Jo", "", [], [], "", [], "", []⟩]
        ⟨none, [], [], []⟩ ⟨0, 0, 0⟩).2.1.errors + 1 :=
  (C7_nondict_entry_isolated.1 "u" "u" (fun _ _ => HttpResult.status 200) 5
    [SnapItem.dict ⟨"p1", "Jo", "", [], [], "", [], "", []⟩] [] ⟨none, [], [], []⟩ ⟨0, 0, 0⟩
    SnapItem.other rfl).2.2.1

/-! ## Claims about the inbound person-update and note handlers -/

/-- C10: when the email lookup misses (or no email is given) the update
handler creates instead of failing, and on creation success marks the new
id as synced from ezekia; the note handler, when every lookup misses,
hard-fails with 404, changes no state and creates nothing. -/
theorem C10_update_creates_note_rejects :
    (∀ (api : FolkApi) (now : Int) (d : EzekiaPersonEvent) (st : SyncState),
      (d.email = "" ∨ api.searchByEmail d.email = none) →
      (FolkCall.createPerson (mkFolkData d) ∈ (webhook_person_update api now d st).calls ∧
        (∀ pid fd, FolkCall.updatePerson pid fd ∉ (webhook_person_update api now d st).calls)) ∧
      ((api.createStatus (mkFolkData d) = 200 ∨ api.createStatus (mkFolkData d) = 201) →
        (webhook_person_update api now d st).status = "success" ∧
        (webhook_person_update api now d st).folk_id = api.createdId (mkFolkData d) ∧
        (webhook_person_update api now d st).state =
          mark_synced st (api.createdId (mkFolkData d)) "ezekia" now)) ∧
    (∀ (api : FolkApi) (now : Int) (d : NoteEvent) (st : SyncState),
      strTrim d.note ≠ "" →
      (d.folk_id = "" ∨ api.getPerson d.folk_id = none) →
      (d.email = "" ∨ api.searchByEmail d.email = none) →
      ((d.first_name = "" ∧ d.last_name = "") ∨
        api.searchByName d.first_name d.last_name = none) →
      (webhook_note api now d st).httpCode = 404 ∧
      (webhook_note api now d st).status = "error" ∧
      (webhook_note api now d st).state = st ∧
      ∀ fd, FolkCall.createPerson fd ∉ (webhook_note api now d st).calls) := by
  constructor
  · intro api now d st hmail
    have hex : (if d.email ≠ "" then api.searchByEmail d.email else none) = none := by
      rcases hmail with h | h
      · simp [h]
      · by_cases he : d.email = "" <;> simp [he, h]
    refine ⟨⟨?_, ?_⟩, ?_⟩
    · simp only [webhook_person_update, hex]
      split_ifs <;> simp
    · intro pid fd
      simp only [webhook_person_update, hex]
      split_ifs <;> simp
    · intro hcs
      simp only [webhook_person_update, hex]
      rw [if_pos hcs]
      exact ⟨rfl, rfl, rfl⟩
  · intro api now d st hnote h1 h2 h3
    have hp1 : (if d.folk_id ≠ "" then api.getPerson d.folk_id else none) = none := by
      rcases h1 with h | h
      · simp [h]
      · by_cases hf : d.folk_id = "" <;> simp [hf, h]
    have hp2 : (if d.email ≠ "" then api.searchByEmail d.email else none) = none := by
      rcases h2 with h | h
      · simp [h]
      · by_cases he : d.email = "" <;> simp [he, h]
    have hp3 : (if d.first_name ≠ "" ∨ d.last_name ≠ "" then
        api.searchByName d.first_name d.last_name else none) = none := by
      rcases h3 with ⟨ha, hb⟩ | h
      · simp [ha, hb]
      · by_cases hc : d.first_name ≠ "" ∨ d.last_name ≠ "" <;> simp [hc, h]
    refine ⟨?_, ?_, ?_, ?_⟩ <;>
      simp only [webhook_note, if_neg hnote, hp1, hp2, hp3] <;>
      simp

/-- A concrete Folk oracle whose lookups all miss and whose create
succeeds with id p9. -/
def wApi : FolkApi :=
  { searchByEmail := fun _ => none
    searchByName := fun _ _ => none
    getPerson := fun _ => none
    createStatus := fun _ => 201
    createdId := fun _ => "p9"
    updateStatus := fun _ _ => 500
    firstGroupId := none
    appendNoteStatus := fun _ _ _ => none }

/-- C10 witness: a miss on email lookup creates and marks p9; a note whose
three lookups miss is a 404. -/
theorem C10_witness :
    (webhook_person_update wApi 3 ⟨"Jo", "D", "", "jo@x.com", "", ""⟩ ⟨none, [], [], []⟩).status =
      "success" ∧
    (webhook_person_update wApi 3 ⟨"Jo", "D", "", "jo@x.com", "", ""⟩ ⟨none, [], [], []⟩).state =
      mark_synced ⟨none, [], [], []⟩ "p9" "ezekia" 3 ∧
    (webhook_note wApi 3 ⟨"a@x.com", "A", "B", "f1", "hello", "note", ""⟩
        ⟨none, [], [], []⟩).httpCode = 404 :=
  ⟨((C10_update_creates_note_rejects.1 wApi 3 ⟨"Jo", "D", "", "jo@x.com", "", ""⟩
      ⟨none, [], [], []⟩ (Or.inr rfl)).2 (Or.inr rfl)).1,
   ((C10_update_creates_note_rejects.1 wApi 3 ⟨"Jo", "D", "", "jo@x.com", "", ""⟩
      ⟨none, [], [], []⟩ (Or.inr rfl)).2 (Or.inr rfl)).2.2,
   (C10_update_creates_note_rejects.2 wApi 3 ⟨"a@x.com", "A", "B", "f1", "hello", "note", ""⟩
      ⟨none, [], [], []⟩ (by decide) (Or.inr rfl) (Or.inr rfl) (Or.inr rfl)).1⟩
